import Mathlib

/-!
Shallow embedding of the SigmaQuantStream backtest engine
(`lib/backtest_runner.py`) and of the crypto risk modeler
(`lib/crypto/risk_modeler.py`).

Python floats are modelled as exact rationals (`ℚ`); code that raises is
modelled with `Except`.  The floating-point square root used by the
Sharpe-ratio computation and scipy's Generalized-Pareto fit have no exact
rational counterpart; they are abstracted as explicit function parameters
(`sqrtFn`, `gpdFit`) and every theorem below holds for all values of those
parameters.
-/

namespace SigmaQuant

/-- Cost-model dictionary of `backtest_runner.py`.  Each key may be present
or absent (`Option`), mirroring Python `dict.get(key, default)` access. -/
structure CostModel where
  type : Option String := none
  commission_per_side : Option ℚ := none
  slippage_ticks : Option ℚ := none
  tick_value : Option ℚ := none
  maker_fee : Option ℚ := none
  taker_fee : Option ℚ := none
  slippage_pct : Option ℚ := none
  gas_per_trade : Option ℚ := none
deriving DecidableEq

/-- `compute_round_trip_cost` of `backtest_runner.py` (lines 70-101).  The
Python `raise ValueError(f"Unknown cost model type: ...")` is modelled as
`Except.error` carrying the same message. -/
def compute_round_trip_cost (cost_model : CostModel) (notional : ℚ) : Except String ℚ :=
  let cm_type := cost_model.type.getD "futures"
  if cm_type = "futures" then
    let commission := cost_model.commission_per_side.getD (5/2)
    let slip_ticks := cost_model.slippage_ticks.getD (1/2)
    let tick_value := cost_model.tick_value.getD (25/2)
    .ok (2 * commission + 2 * slip_ticks * tick_value)
  else if cm_type = "crypto_cex" then
    let maker := cost_model.maker_fee.getD (2/10000)
    let taker := cost_model.taker_fee.getD (5/10000)
    let slip := cost_model.slippage_pct.getD (5/10000)
    .ok ((maker + taker + 2 * slip) * notional)
  else if cm_type = "crypto_dex" then
    let maker := cost_model.maker_fee.getD (2/10000)
    let taker := cost_model.taker_fee.getD (5/10000)
    let gas := cost_model.gas_per_trade.getD (1/2)
    let slip := cost_model.slippage_pct.getD (1/1000)
    .ok ((maker + taker + 2 * slip) * notional + 2 * gas)
  else
    .error ("Unknown cost model type: " ++ cm_type)

/-- The `Trade` dataclass of `backtest_runner.py`. -/
structure Trade where
  entry_bar : ℕ
  exit_bar : ℕ
  side : String
  entry_price : ℚ
  exit_price : ℚ
  pnl : ℚ
  mfe : ℚ
  mae : ℚ
deriving DecidableEq

/-- The mutable loop state of `simulate_trades`: `position`, `entry_bar`,
`entry_price`, `running_mfe`, `running_mae` and the accumulated trade list.
`position` starts as the integer 0 but is assigned the (float) signal value
by `position = sig`, so it is a rational here. -/
structure SimState where
  position : ℚ
  entry_bar : ℕ
  entry_price : ℚ
  running_mfe : ℚ
  running_mae : ℚ
  trades : List Trade
deriving DecidableEq

def initState : SimState := ⟨0, 0, 0, 0, 0, []⟩

/-- One iteration (bar `i`) of the `for i in range(1, n)` loop of
`simulate_trades` (lines 251-299).  `rtCost` is the total function
`notional ↦ compute_round_trip_cost(cost_model, notional)` for a cost
model on which that call succeeds (all supported model types). -/
def simStep (rtCost : ℚ → ℚ) (opens highs lows signals : List ℚ)
    (i : ℕ) (st : SimState) : SimState :=
  let sig := signals.getD (i - 1) 0
  let st1 :=
    if sig ≠ st.position then
      let closed :=
        if st.position ≠ 0 then
          let exit_price := opens.getD i 0
          let raw_pnl :=
            if st.position = 1 then exit_price - st.entry_price
            else st.entry_price - exit_price
          let net_pnl := raw_pnl - rtCost |st.entry_price|
          let t : Trade :=
            { entry_bar := st.entry_bar, exit_bar := i,
              side := if st.position = 1 then "long" else "short",
              entry_price := st.entry_price, exit_price := exit_price,
              pnl := net_pnl, mfe := st.running_mfe, mae := st.running_mae }
          st.trades ++ [t]
        else st.trades
      if sig ≠ 0 then
        { position := sig, entry_bar := i, entry_price := opens.getD i 0,
          running_mfe := 0, running_mae := 0, trades := closed }
      else
        { st with position := 0, trades := closed }
    else st
  if st1.position ≠ 0 then
    let eh := if st1.position = 1 then highs.getD i 0 - st1.entry_price
              else st1.entry_price - lows.getD i 0
    let el := if st1.position = 1 then lows.getD i 0 - st1.entry_price
              else st1.entry_price - highs.getD i 0
    { st1 with running_mfe := max st1.running_mfe eh,
               running_mae := min st1.running_mae el }
  else st1

/-- The loop `for i in range(1, n)` run from index `i` for `fuel` more
iterations. -/
def simLoop (rtCost : ℚ → ℚ) (opens highs lows signals : List ℚ) :
    ℕ → ℕ → SimState → SimState
  | _, 0, st => st
  | i, fuel + 1, st =>
      simLoop rtCost opens highs lows signals (i + 1) fuel
        (simStep rtCost opens highs lows signals i st)

/-- `simulate_trades` of `backtest_runner.py` (lines 224-324): the loop over
bars `1 .. n-1` followed by the end-of-series flush at the last bar's close. -/
def simulate_trades (rtCost : ℚ → ℚ)
    (opens highs lows closes signals : List ℚ) : List Trade :=
  let n := opens.length
  let st := simLoop rtCost opens highs lows signals 1 (n - 1) initState
  if st.position ≠ 0 then
    let exit_price := closes.getD (n - 1) 0
    let raw_pnl := if st.position = 1 then exit_price - st.entry_price
                   else st.entry_price - exit_price
    let net_pnl := raw_pnl - rtCost |st.entry_price|
    let t : Trade :=
      { entry_bar := st.entry_bar, exit_bar := n - 1,
        side := if st.position = 1 then "long" else "short",
        entry_price := st.entry_price, exit_price := exit_price,
        pnl := net_pnl, mfe := st.running_mfe, mae := st.running_mae }
    st.trades ++ [t]
  else st.trades

/-- The round-trip cost function of a futures cost model: a constant,
independent of notional (`2*commission + 2*slippage_ticks*tick_value`). -/
def futuresCostFn (commission slip_ticks tick_value : ℚ) : ℚ → ℚ :=
  fun _ => 2 * commission + 2 * slip_ticks * tick_value

/-- Python's `round(x, d)` (round half to even, "banker's rounding"),
modelled exactly on rationals: the integer nearest `x`, ties to even. -/
def roundHalfEven (x : ℚ) : ℤ :=
  let f := ⌊x⌋
  let r := x - f
  if r < 1/2 then f
  else if 1/2 < r then f + 1
  else if Even f then f else f + 1

/-- `round(x, d)`: round to `d` decimal places, half to even. -/
def roundTo (d : ℕ) (x : ℚ) : ℚ := (roundHalfEven (x * 10 ^ d) : ℚ) / 10 ^ d

/-- The value of the `profit_factor` float field: a finite rational or the
`float("inf")` sentinel. -/
inductive PFVal where
  | finite (q : ℚ)
  | infinite
deriving DecidableEq

/-- `round(x, d)` lifted to `PFVal`: Python's `round(float("inf"), 4)` is
`inf` again. -/
def pfRound (d : ℕ) : PFVal → PFVal
  | .finite q => .finite (roundTo d q)
  | .infinite => .infinite

/-- Arithmetic mean (`np.mean`) of a list; callers guard non-emptiness. -/
def listMean (l : List ℚ) : ℚ := l.sum / l.length

/-- `np.max` of a list; callers guard non-emptiness. -/
def listMax : List ℚ → ℚ
  | [] => 0
  | x :: xs => xs.foldl max x

/-- `np.cumsum`, with running total `acc`. -/
def cumsumAux (acc : ℚ) : List ℚ → List ℚ
  | [] => []
  | x :: xs => (acc + x) :: cumsumAux (acc + x) xs

def cumsum (l : List ℚ) : List ℚ := cumsumAux 0 l

/-- `np.maximum.accumulate`, with running maximum `cur`. -/
def runMaxAux (cur : ℚ) : List ℚ → List ℚ
  | [] => []
  | x :: xs => (max cur x) :: runMaxAux (max cur x) xs

def runningMax : List ℚ → List ℚ
  | [] => []
  | x :: xs => x :: runMaxAux x xs

/-- The max-consecutive-losses fold of `compute_metrics`. -/
def maxConsecAux : List ℚ → ℕ → ℕ → ℕ
  | [], _, best => best
  | p :: ps, cur, best =>
      if p < 0 then maxConsecAux ps (cur + 1) (max best (cur + 1))
      else maxConsecAux ps 0 best

/-- The `BacktestMetrics` dataclass; every field defaults to zero. -/
structure BacktestMetrics where
  total_pnl : ℚ := 0
  sharpe_ratio : ℚ := 0
  max_drawdown : ℚ := 0
  max_drawdown_dollars : ℚ := 0
  win_rate : ℚ := 0
  profit_factor : PFVal := .finite 0
  total_trades : ℕ := 0
  avg_trade_pnl : ℚ := 0
  avg_winner : ℚ := 0
  avg_loser : ℚ := 0
  max_consecutive_losses : ℕ := 0
  avg_holding_bars : ℚ := 0
  expectancy : ℚ := 0
  calmar_ratio : ℚ := 0
deriving DecidableEq

/-- `compute_metrics` of `backtest_runner.py` (lines 348-418).  `sqrtFn`
abstracts the floating-point square root (`np.std` is
`sqrtFn (mean of squared deviations)`, `math.sqrt(252)` is `sqrtFn 252`);
every claim proved below holds for all `sqrtFn`. -/
def compute_metrics (sqrtFn : ℚ → ℚ) (trades : List Trade) : BacktestMetrics :=
  if trades.isEmpty then {}
  else
    let pnls := trades.map Trade.pnl
    let total_pnl := pnls.sum
    let total_trades := trades.length
    let winners := pnls.filter (fun p => decide (0 < p))
    let losers := pnls.filter (fun p => decide (p < 0))
    let win_rate := if total_trades > 0 then (winners.length : ℚ) / total_trades else 0
    let avg_trade_pnl := if total_trades > 0 then listMean pnls else 0
    let avg_winner := if winners.length > 0 then listMean winners else 0
    let avg_loser := if losers.length > 0 then listMean losers else 0
    let gross_profit := if winners.length > 0 then winners.sum else 0
    let gross_loss := if losers.length > 0 then |losers.sum| else 0
    let profit_factor : PFVal :=
      if gross_loss > 0 then .finite (gross_profit / gross_loss) else .infinite
    let std := sqrtFn (listMean (pnls.map (fun p => (p - listMean pnls) ^ 2)))
    let sharpe_ratio :=
      if total_trades > 1 ∧ std > 0 then listMean pnls / std * sqrtFn 252 else 0
    let equity := cumsum pnls
    let running_max := runningMax equity
    let drawdowns := List.zipWith (fun a b => a - b) running_max equity
    let max_dd_dollars := if drawdowns.length > 0 then listMax drawdowns else 0
    let peak := if running_max.length > 0 then listMax running_max else 0
    let max_dd_pct := if peak > 0 then max_dd_dollars / peak else 0
    let max_consec := maxConsecAux pnls 0 0
    let holding_bars := trades.map (fun t => (t.exit_bar : ℚ) - t.entry_bar)
    let avg_holding := if holding_bars.length > 0 then listMean holding_bars else 0
    let calmar := if max_dd_dollars > 0 then |total_pnl / max_dd_dollars| else 0
    { total_pnl := roundTo 2 total_pnl
      sharpe_ratio := roundTo 4 sharpe_ratio
      max_drawdown := roundTo 4 max_dd_pct
      max_drawdown_dollars := roundTo 2 max_dd_dollars
      win_rate := roundTo 4 win_rate
      profit_factor := pfRound 4 profit_factor
      total_trades := total_trades
      avg_trade_pnl := roundTo 2 avg_trade_pnl
      avg_winner := roundTo 2 avg_winner
      avg_loser := roundTo 2 avg_loser
      max_consecutive_losses := max_consec
      avg_holding_bars := roundTo 2 avg_holding
      expectancy := roundTo 2 avg_trade_pnl
      calmar_ratio := roundTo 4 calmar }

/-- The `AntiOverfitFlags` dataclass. -/
structure AntiOverfitFlags where
  sharpe_above_3 : Bool := false
  win_rate_above_80 : Bool := false
  trades_below_100 : Bool := false
  no_losing_months : Bool := false
deriving DecidableEq

/-- `check_overfit_flags` (lines 484-494).  `monthly_returns` is the list of
monthly pnl values (the `"pnl"` entries of the Python dicts). -/
def check_overfit_flags (metrics : BacktestMetrics) (monthly_returns : List ℚ) :
    AntiOverfitFlags :=
  { sharpe_above_3 := decide (metrics.sharpe_ratio > 3)
    win_rate_above_80 := decide (metrics.win_rate > 4/5)
    trades_below_100 := decide (metrics.total_trades < 100)
    no_losing_months :=
      if monthly_returns.isEmpty then false
      else decide ((monthly_returns.filter (fun p => decide (p < 0))).length = 0 ∧
        monthly_returns.length > 3) }

/-- `grade_result` (lines 497-533): `(passed, grade)`. -/
def grade_result (metrics : BacktestMetrics) (flags : AntiOverfitFlags) :
    Bool × String :=
  if flags.sharpe_above_3 then (false, "rejected")
  else if flags.win_rate_above_80 then (false, "rejected")
  else if metrics.total_trades < 30 then (false, "rejected")
  else if flags.no_losing_months then (false, "rejected")
  else if 1 ≤ metrics.sharpe_ratio ∧ metrics.sharpe_ratio ≤ 3/2 then (true, "under_review")
  else if metrics.max_drawdown > 3/20 then (true, "under_review")
  else if 30 ≤ metrics.total_trades ∧ metrics.total_trades ≤ 100 then (true, "under_review")
  else if 3/2 < metrics.sharpe_ratio ∧ metrics.sharpe_ratio ≤ 3 ∧
      metrics.max_drawdown ≤ 3/20 ∧ metrics.total_trades > 100 ∧
      metrics.win_rate ≤ 4/5 then (true, "good")
  else (true, "under_review")

/-- The grade decision table transcribed from the specification's words
(first match wins, top to bottom), for comparison with the composition
`grade_result ∘ check_overfit_flags` taken from the source. -/
def gradeSpecTable (metrics : BacktestMetrics) (monthly_returns : List ℚ) :
    Bool × String :=
  if metrics.sharpe_ratio > 3 then (false, "rejected")
  else if metrics.win_rate > 4/5 then (false, "rejected")
  else if metrics.total_trades < 30 then (false, "rejected")
  else if (monthly_returns.filter (fun p => decide (p < 0))).length = 0 ∧
      monthly_returns.length > 3 then (false, "rejected")
  else if (1 ≤ metrics.sharpe_ratio ∧ metrics.sharpe_ratio ≤ 3/2) ∨
      metrics.max_drawdown > 3/20 ∨
      (30 ≤ metrics.total_trades ∧ metrics.total_trades ≤ 100) then (true, "under_review")
  else if 3/2 < metrics.sharpe_ratio ∧ metrics.sharpe_ratio ≤ 3 ∧
      metrics.max_drawdown ≤ 3/20 ∧ metrics.total_trades > 100 ∧
      metrics.win_rate ≤ 4/5 then (true, "good")
  else (true, "under_review")

/-- One walk-forward fold record: `{"fold": k, "train_range": [lo, hi],
"test_range": [lo, hi]}`. -/
structure WFFold where
  fold : ℕ
  train_start : ℕ
  train_end : ℕ
  test_start : ℕ
  test_end : ℕ
deriving DecidableEq

/-- The `while start + train_bars + test_bars <= total_bars` loop of
`run_walk_forward` (lines 560-626), collecting the fold ranges.  The loop
is written with fuel; `total_bars + 1` iterations suffice whenever
`step_bars ≥ 1` (with `step_bars = 0` the Python loop would never
terminate once a fold fits). -/
def wfFoldsAux (train_bars test_bars step_bars total_bars : ℕ) :
    ℕ → ℕ → ℕ → List WFFold
  | _, _, 0 => []
  | start, fold_num, fuel + 1 =>
      if start + train_bars + test_bars ≤ total_bars then
        let f : WFFold :=
          { fold := fold_num + 1, train_start := start,
            train_end := start + train_bars, test_start := start + train_bars,
            test_end := min (start + train_bars + test_bars) total_bars }
        f :: wfFoldsAux train_bars test_bars step_bars total_bars
          (start + step_bars) (fold_num + 1) fuel
      else []

def wfFolds (train_bars test_bars step_bars total_bars : ℕ) : List WFFold :=
  wfFoldsAux train_bars test_bars step_bars total_bars 0 0 (total_bars + 1)

/-- The `WalkForwardReport`: fold list plus aggregate statistics. -/
structure WFReport where
  total_folds : ℕ
  folds : List WFFold
  avg_oos_sharpe : ℚ
  avg_oos_pnl : ℚ
  total_oos_pnl : ℚ
  avg_oos_decay_pct : ℚ
  max_oos_decay_pct : ℚ
deriving DecidableEq

/-- `run_walk_forward` (lines 560-626).  Running the externally loaded
strategy on each fold is abstracted by `oracle`: for the 0-based fold
index `k`, `oracle k = (is_sharpe, oos_sharpe, oos_pnl)` of that fold's
in-sample and out-of-sample metrics; the fold count, the fold ranges and
the empty-fold aggregates do not depend on it. -/
def run_walk_forward (oracle : ℕ → ℚ × ℚ × ℚ)
    (train_bars test_bars step_bars total_bars : ℕ) : WFReport :=
  let folds := wfFolds train_bars test_bars step_bars total_bars
  let idx := List.range folds.length
  let all_oos_sharpes := idx.map (fun k => (oracle k).2.1)
  let all_oos_pnls := idx.map (fun k => (oracle k).2.2)
  let all_decay := idx.map (fun k =>
    let is_sharpe := (oracle k).1
    let oos_decay := if is_sharpe ≠ 0 then 1 - (oracle k).2.1 / is_sharpe else 0
    roundTo 2 (oos_decay * 100))
  { total_folds := folds.length
    folds := folds
    avg_oos_sharpe :=
      if ¬ all_oos_sharpes.isEmpty then roundTo 4 (listMean all_oos_sharpes) else 0
    avg_oos_pnl :=
      if ¬ all_oos_pnls.isEmpty then roundTo 2 (listMean all_oos_pnls) else 0
    total_oos_pnl :=
      if ¬ all_oos_pnls.isEmpty then roundTo 2 all_oos_pnls.sum else 0
    avg_oos_decay_pct :=
      if ¬ all_decay.isEmpty then roundTo 2 (listMean all_decay) else 0
    max_oos_decay_pct :=
      if ¬ all_decay.isEmpty then roundTo 2 (listMax all_decay) else 0 }

/-- `np.percentile(a, q)` with the default linear interpolation: sort
ascending, take `h = q/100 * (n-1)` and interpolate between the two
neighbouring order statistics. -/
def percentile (a : List ℚ) (q : ℚ) : ℚ :=
  let s := List.insertionSort (fun x y => x ≤ y) a
  let h := q / 100 * ((s.length : ℚ) - 1)
  let lo := ⌊h⌋.toNat
  let base := s.getD lo 0
  base + (h - ⌊h⌋) * (s.getD (lo + 1) base - base)

/-- `CryptoRiskModeler.evt_var` of `lib/crypto/risk_modeler.py` (lines
112-171).  The scipy `genpareto.fit` call and the subsequent
floating-point GPD VaR formula are abstracted as `gpdBranch`, applied to
the exceedance list: `none` models the `except` path (fit raised, fall
back), `some v` a successful fit's EVT VaR.  All three fallback paths
return the empirical historical VaR `percentile returns ((1-confidence)*100)`
exactly as the source does. -/
def evt_var (gpdBranch : List ℚ → Option ℚ) (returns : List ℚ)
    (confidence : ℚ) : ℚ :=
  if returns.length < 20 then percentile returns ((1 - confidence) * 100)
  else
    let threshold := percentile returns 5
    let exceedances :=
      (returns.filter (fun r => decide (r < threshold))).map (fun r => r - threshold)
    if exceedances.length < 10 then percentile returns ((1 - confidence) * 100)
    else
      match gpdBranch exceedances with
      | none => percentile returns ((1 - confidence) * 100)
      | some v => v

/-- The record invariant of a simulator trade: entry bar not after exit
bar, non-negative max favorable excursion, non-positive max adverse
excursion. -/
def TradeOK (t : Trade) : Prop :=
  t.entry_bar ≤ t.exit_bar ∧ 0 ≤ t.mfe ∧ t.mae ≤ 0

/-- Loop invariant of `simulate_trades` after processing bars up to `b`:
all emitted trades satisfy `TradeOK`, an open position was entered at a
bar `≤ b`, and the running excursions have the right signs. -/
def StOK (b : ℕ) (st : SimState) : Prop :=
  (∀ t ∈ st.trades, TradeOK t) ∧ (st.position ≠ 0 → st.entry_bar ≤ b) ∧
    0 ≤ st.running_mfe ∧ st.running_mae ≤ 0

/-- After processing bar `i`, the held position is always the decision
signal `signal[i-1]`: either it already was, or the step assigns it. -/
theorem simStep_position (rtCost : ℚ → ℚ) (opens highs lows signals : List ℚ)
    (i : ℕ) (st : SimState) :
    (simStep rtCost opens highs lows signals i st).position =
      signals.getD (i - 1) 0 := by
  simp only [simStep, apply_ite SimState.position]
  split_ifs with h1 h2 <;> simp_all

/-- A bar with signal 0 seen from a flat state changes nothing. -/
theorem simStep_flat (rtCost : ℚ → ℚ) (opens highs lows signals : List ℚ)
    (i : ℕ) (st : SimState) (hpos : st.position = 0)
    (hsig : signals.getD (i - 1) 0 = 0) :
    simStep rtCost opens highs lows signals i st = st := by
  have h1 : ¬ (signals.getD (i - 1) 0 ≠ st.position) := by rw [hsig, hpos]; simp
  have h2 : ¬ (st.position ≠ 0) := by simp [hpos]
  simp only [simStep, if_neg h1, if_neg h2]

/-- A non-zero signal seen from a flat state opens a position at this bar's
open, resets the excursion accumulators (then updates them with this bar's
high/low) and appends no trade. -/
theorem simStep_open (rtCost : ℚ → ℚ) (opens highs lows signals : List ℚ)
    (i : ℕ) (st : SimState) (hpos : st.position = 0)
    (hsig : signals.getD (i - 1) 0 ≠ 0) :
    simStep rtCost opens highs lows signals i st =
      { position := signals.getD (i - 1) 0, entry_bar := i,
        entry_price := opens.getD i 0,
        running_mfe := max 0 (if signals.getD (i - 1) 0 = 1 then
          highs.getD i 0 - opens.getD i 0 else opens.getD i 0 - lows.getD i 0),
        running_mae := min 0 (if signals.getD (i - 1) 0 = 1 then
          lows.getD i 0 - opens.getD i 0 else opens.getD i 0 - highs.getD i 0),
        trades := st.trades } := by
  have h1 : signals.getD (i - 1) 0 ≠ st.position := by rw [hpos]; exact hsig
  have h2 : ¬ (st.position ≠ 0) := by simp [hpos]
  simp only [simStep, if_pos h1, if_neg h2, if_pos hsig]

/-- A signal equal to the held non-zero position only updates MFE/MAE. -/
theorem simStep_hold (rtCost : ℚ → ℚ) (opens highs lows signals : List ℚ)
    (i : ℕ) (st : SimState) (hpos : st.position ≠ 0)
    (hsig : signals.getD (i - 1) 0 = st.position) :
    simStep rtCost opens highs lows signals i st =
      { st with
        running_mfe := max st.running_mfe (if st.position = 1 then
          highs.getD i 0 - st.entry_price else st.entry_price - lows.getD i 0),
        running_mae := min st.running_mae (if st.position = 1 then
          lows.getD i 0 - st.entry_price else st.entry_price - highs.getD i 0) } := by
  have h1 : ¬ (signals.getD (i - 1) 0 ≠ st.position) := by rw [hsig]; simp
  simp only [simStep, if_neg h1, if_pos hpos]

/-- A non-zero signal differing from the held non-zero position closes the
trade at this bar's open and immediately opens the new position. -/
theorem simStep_close_open (rtCost : ℚ → ℚ) (opens highs lows signals : List ℚ)
    (i : ℕ) (st : SimState) (hpos : st.position ≠ 0)
    (hsig : signals.getD (i - 1) 0 ≠ st.position)
    (hsig0 : signals.getD (i - 1) 0 ≠ 0) :
    simStep rtCost opens highs lows signals i st =
      { position := signals.getD (i - 1) 0, entry_bar := i,
        entry_price := opens.getD i 0,
        running_mfe := max 0 (if signals.getD (i - 1) 0 = 1 then
          highs.getD i 0 - opens.getD i 0 else opens.getD i 0 - lows.getD i 0),
        running_mae := min 0 (if signals.getD (i - 1) 0 = 1 then
          lows.getD i 0 - opens.getD i 0 else opens.getD i 0 - highs.getD i 0),
        trades := st.trades ++
          [{ entry_bar := st.entry_bar, exit_bar := i,
             side := if st.position = 1 then "long" else "short",
             entry_price := st.entry_price, exit_price := opens.getD i 0,
             pnl := (if st.position = 1 then opens.getD i 0 - st.entry_price
               else st.entry_price - opens.getD i 0) - rtCost |st.entry_price|,
             mfe := st.running_mfe, mae := st.running_mae }] } := by
  simp only [simStep, if_pos hsig, if_pos hpos, if_pos hsig0]

/-- A zero signal seen while holding a position closes the trade at this
bar's open and goes flat. -/
theorem simStep_close_flat (rtCost : ℚ → ℚ) (opens highs lows signals : List ℚ)
    (i : ℕ) (st : SimState) (hpos : st.position ≠ 0)
    (hsig0 : signals.getD (i - 1) 0 = 0) :
    simStep rtCost opens highs lows signals i st =
      { position := 0, entry_bar := st.entry_bar,
        entry_price := st.entry_price, running_mfe := st.running_mfe,
        running_mae := st.running_mae,
        trades := st.trades ++
          [{ entry_bar := st.entry_bar, exit_bar := i,
             side := if st.position = 1 then "long" else "short",
             entry_price := st.entry_price, exit_price := opens.getD i 0,
             pnl := (if st.position = 1 then opens.getD i 0 - st.entry_price
               else st.entry_price - opens.getD i 0) - rtCost |st.entry_price|,
             mfe := st.running_mfe, mae := st.running_mae }] } := by
  have hsig : signals.getD (i - 1) 0 ≠ st.position := by
    rw [hsig0]; exact fun h => hpos h.symm
  have h0 : ¬ (signals.getD (i - 1) 0 ≠ 0) := by rw [hsig0]; simp
  have hz : ¬ ((0 : ℚ) ≠ 0) := by simp
  simp only [simStep, if_pos hsig, if_pos hpos, if_neg h0, if_neg hz]

/-- `StOK` only weakens as the bar bound grows. -/
theorem StOK_mono {b b' : ℕ} {st : SimState} (h : StOK b st) (hb : b ≤ b') :
    StOK b' st :=
  ⟨h.1, fun hp => le_trans (h.2.1 hp) hb, h.2.2.1, h.2.2.2⟩

theorem initState_StOK (b : ℕ) : StOK b initState :=
  ⟨fun t ht => absurd ht (List.not_mem_nil t), fun h => absurd rfl h,
    le_refl 0, le_refl 0⟩

/-- One simulator step preserves the loop invariant. -/
theorem simStep_StOK (rtCost : ℚ → ℚ) (opens highs lows signals : List ℚ)
    (i b : ℕ) (st : SimState) (hb : b ≤ i) (hst : StOK b st) :
    StOK i (simStep rtCost opens highs lows signals i st) := by
  obtain ⟨htr, hentry, hmfe, hmae⟩ := hst
  by_cases hpos : st.position = 0
  · by_cases hsig : signals.getD (i - 1) 0 = 0
    · rw [simStep_flat rtCost opens highs lows signals i st hpos hsig]
      exact ⟨htr, fun hp => absurd hpos hp, hmfe, hmae⟩
    · rw [simStep_open rtCost opens highs lows signals i st hpos hsig]
      exact ⟨htr, fun _ => le_rfl, le_max_left 0 _, min_le_left 0 _⟩
  · by_cases hsig : signals.getD (i - 1) 0 = st.position
    · rw [simStep_hold rtCost opens highs lows signals i st hpos hsig]
      exact ⟨htr, fun _ => le_trans (hentry hpos) hb,
        le_trans hmfe (le_max_left _ _), le_trans (min_le_left _ _) hmae⟩
    · have htrOK : ∀ (ex : ℚ) (t : Trade), t ∈ st.trades ++
          [{ entry_bar := st.entry_bar, exit_bar := i,
             side := if st.position = 1 then "long" else "short",
             entry_price := st.entry_price, exit_price := ex,
             pnl := (if st.position = 1 then ex - st.entry_price
               else st.entry_price - ex) - rtCost |st.entry_price|,
             mfe := st.running_mfe, mae := st.running_mae }] → TradeOK t := by
        intro ex t ht
        rcases List.mem_append.mp ht with h | h
        · exact htr t h
        · rcases List.mem_singleton.mp h with rfl
          exact ⟨le_trans (hentry hpos) hb, hmfe, hmae⟩
      by_cases hsig0 : signals.getD (i - 1) 0 = 0
      · rw [simStep_close_flat rtCost opens highs lows signals i st hpos hsig0]
        exact ⟨htrOK (opens.getD i 0), fun hp => absurd rfl hp, hmfe, hmae⟩
      · rw [simStep_close_open rtCost opens highs lows signals i st hpos hsig hsig0]
        exact ⟨htrOK (opens.getD i 0), fun _ => le_rfl, le_max_left 0 _,
          min_le_left 0 _⟩

/-- Running the loop preserves the invariant, with the bound at the last
processed bar. -/
theorem simLoop_StOK (rtCost : ℚ → ℚ) (opens highs lows signals : List ℚ) :
    ∀ (f i : ℕ) (st : SimState), StOK i st →
      StOK (i + f) (simLoop rtCost opens highs lows signals i (f + 1) st) := by
  intro f
  induction f with
  | zero =>
      intro i st hst
      exact simStep_StOK rtCost opens highs lows signals i i st le_rfl hst
  | succ f ih =>
      intro i st hst
      have h1 : StOK (i + 1) (simStep rtCost opens highs lows signals i st) :=
        StOK_mono (simStep_StOK rtCost opens highs lows signals i i st le_rfl hst)
          (by omega)
      have h2 := ih (i + 1) _ h1
      rw [show i + (f + 1) = i + 1 + f from by omega]
      exact h2

/-- Peeling the last iteration off the simulation loop. -/
theorem simLoop_succ (rtCost : ℚ → ℚ) (opens highs lows signals : List ℚ)
    (r : ℕ) : ∀ (i : ℕ) (st : SimState),
    simLoop rtCost opens highs lows signals i (r + 1) st =
      simStep rtCost opens highs lows signals (i + r)
        (simLoop rtCost opens highs lows signals i r st) := by
  induction r with
  | zero => intro i st; rfl
  | succ r ih =>
      intro i st
      calc simLoop rtCost opens highs lows signals i (r + 1 + 1) st
          = simLoop rtCost opens highs lows signals (i + 1) (r + 1)
              (simStep rtCost opens highs lows signals i st) := rfl
        _ = simStep rtCost opens highs lows signals (i + 1 + r)
              (simLoop rtCost opens highs lows signals (i + 1) r
                (simStep rtCost opens highs lows signals i st)) := ih _ _
        _ = simStep rtCost opens highs lows signals (i + (r + 1))
              (simLoop rtCost opens highs lows signals i (r + 1) st) := by
            rw [show i + 1 + r = i + (r + 1) from by omega]; rfl

/-- While the signal stays 0 the simulator state stays initial. -/
theorem simLoop_all_flat (rtCost : ℚ → ℚ) (opens highs lows signals : List ℚ)
    (k : ℕ) (hk0 : ∀ j, j < k → signals.getD j 0 = 0) :
    ∀ f, f ≤ k →
      simLoop rtCost opens highs lows signals 1 f initState = initState := by
  intro f
  induction f with
  | zero => intro _; rfl
  | succ f ih =>
      intro hf
      rw [simLoop_succ, ih (by omega)]
      exact simStep_flat _ _ _ _ _ _ _ rfl
        (by simpa using hk0 (1 + f - 1) (by omega))

/-- After a single signal flip to `v ≠ 0` at bar `k`, every later processed
bar leaves the simulator holding the position opened at bar `k+1`, with no
trade recorded. -/
theorem simLoop_flip_state (rtCost : ℚ → ℚ) (opens highs lows signals : List ℚ)
    (k : ℕ) (v : ℚ) (hv : v ≠ 0)
    (hk0 : ∀ j, j < k → signals.getD j 0 = 0) :
    ∀ f, (∀ j, k ≤ j → j ≤ k + f → signals.getD j 0 = v) →
      ∃ mfe mae, simLoop rtCost opens highs lows signals 1 (k + 1 + f) initState
        = ⟨v, k + 1, opens.getD (k + 1) 0, mfe, mae, []⟩ := by
  intro f
  induction f with
  | zero =>
      intro hkv
      have hsig : signals.getD (k + 1 - 1) 0 = v := hkv k le_rfl (by omega)
      have hres : simLoop rtCost opens highs lows signals 1 (k + 1 + 0) initState =
          ⟨v, k + 1, opens.getD (k + 1) 0,
            max 0 (if v = 1 then highs.getD (k + 1) 0 - opens.getD (k + 1) 0
              else opens.getD (k + 1) 0 - lows.getD (k + 1) 0),
            min 0 (if v = 1 then lows.getD (k + 1) 0 - opens.getD (k + 1) 0
              else opens.getD (k + 1) 0 - highs.getD (k + 1) 0), []⟩ := by
        rw [show k + 1 + 0 = k + 1 from rfl, simLoop_succ,
          simLoop_all_flat rtCost opens highs lows signals k hk0 k le_rfl,
          show 1 + k = k + 1 from Nat.add_comm 1 k,
          simStep_open rtCost opens highs lows signals (k + 1) initState rfl
            (by rw [hsig]; exact hv), hsig]
        rfl
      exact ⟨_, _, hres⟩
  | succ f ih =>
      intro hkv
      obtain ⟨mfe, mae, hst⟩ := ih (fun j h1 h2 => hkv j h1 (by omega))
      have hsig : signals.getD ((k + 1 + f) + 1 - 1) 0 = v :=
        hkv (k + 1 + f) (by omega) (by omega)
      have hres : simLoop rtCost opens highs lows signals 1 (k + 1 + (f + 1))
          initState =
          ⟨v, k + 1, opens.getD (k + 1) 0,
            max mfe (if v = 1 then
              highs.getD ((k + 1 + f) + 1) 0 - opens.getD (k + 1) 0
              else opens.getD (k + 1) 0 - lows.getD ((k + 1 + f) + 1) 0),
            min mae (if v = 1 then
              lows.getD ((k + 1 + f) + 1) 0 - opens.getD (k + 1) 0
              else opens.getD (k + 1) 0 - highs.getD ((k + 1 + f) + 1) 0), []⟩ := by
        rw [show k + 1 + (f + 1) = (k + 1 + f) + 1 from by omega, simLoop_succ, hst,
          show 1 + (k + 1 + f) = (k + 1 + f) + 1 from Nat.add_comm _ _,
          simStep_hold rtCost opens highs lows signals ((k + 1 + f) + 1) _
            (show v ≠ 0 from hv) hsig]
      exact ⟨_, _, hres⟩

/-- The single-flip scenario: signal 0 before bar `k`, the constant `v ≠ 0`
from bar `k` on (a series that never returns to 0 and never reverses), with
the flip strictly before the final bar.  The simulator emits exactly one
trade: entered at bar `k+1`'s open, force-closed at the final bar's close. -/
theorem simulate_single_flip (rtCost : ℚ → ℚ)
    (opens highs lows closes signals : List ℚ) (k : ℕ) (v : ℚ)
    (hv : v ≠ 0) (hlen : signals.length = opens.length)
    (hk : k + 2 ≤ opens.length)
    (hk0 : ∀ j, j < k → signals.getD j 0 = 0)
    (hkv : ∀ j, k ≤ j → j < signals.length → signals.getD j 0 = v) :
    ∃ t : Trade,
      simulate_trades rtCost opens highs lows closes signals = [t] ∧
      t.entry_bar = k + 1 ∧ t.entry_price = opens.getD (k + 1) 0 ∧
      t.exit_bar = opens.length - 1 ∧
      t.exit_price = closes.getD (opens.length - 1) 0 := by
  obtain ⟨mfe, mae, hst⟩ := simLoop_flip_state rtCost opens highs lows signals
    k v hv hk0 (opens.length - 2 - k) (fun j h1 h2 => hkv j h1 (by omega))
  have hfuel : opens.length - 1 = k + 1 + (opens.length - 2 - k) := by omega
  have hsim : simulate_trades rtCost opens highs lows closes signals =
      [⟨k + 1, opens.length - 1, if v = 1 then "long" else "short",
        opens.getD (k + 1) 0, closes.getD (opens.length - 1) 0,
        (if v = 1 then closes.getD (opens.length - 1) 0 - opens.getD (k + 1) 0
          else opens.getD (k + 1) 0 - closes.getD (opens.length - 1) 0) -
          rtCost |opens.getD (k + 1) 0|, mfe, mae⟩] := by
    simp only [simulate_trades]
    rw [hfuel, hst, if_pos (show v ≠ 0 from hv)]
    rfl
  exact ⟨_, hsim, rfl, rfl, rfl, rfl⟩

/-- C1: the simulator lag invariant.  First conjunct: after processing bar
`i` (`1 ≤ i ≤ n-1`) the held position is exactly `signal[i-1]`, never
`signal[i]`.  Second conjunct: a single signal flip to `v ≠ 0` at bar `k`
(with at least one bar after `k`) yields a trade entered exactly at bar
`k+1`, at bar `k+1`'s open price. -/
theorem sim_lag_invariant :
    (∀ (rtCost : ℚ → ℚ) (opens highs lows signals : List ℚ) (i : ℕ),
      1 ≤ i → i ≤ opens.length - 1 →
      (simLoop rtCost opens highs lows signals 1 i initState).position =
        signals.getD (i - 1) 0) ∧
    (∀ (rtCost : ℚ → ℚ) (opens highs lows closes signals : List ℚ)
        (k : ℕ) (v : ℚ), v ≠ 0 → signals.length = opens.length →
      k + 2 ≤ opens.length →
      (∀ j, j < k → signals.getD j 0 = 0) →
      (∀ j, k ≤ j → j < signals.length → signals.getD j 0 = v) →
      ∃ t : Trade, simulate_trades rtCost opens highs lows closes signals = [t] ∧
        t.entry_bar = k + 1 ∧ t.entry_price = opens.getD (k + 1) 0) := by
  constructor
  · intro rtCost opens highs lows signals i h1 _h2
    obtain ⟨j, rfl⟩ : ∃ j, i = j + 1 := ⟨i - 1, by omega⟩
    rw [simLoop_succ, simStep_position]
    have he : 1 + j - 1 = j + 1 - 1 := by omega
    rw [he]
  · intro rtCost opens highs lows closes signals k v hv hlen hk hk0 hkv
    obtain ⟨t, hsim, he, hp, _, _⟩ := simulate_single_flip rtCost opens highs lows
      closes signals k v hv hlen hk hk0 hkv
    exact ⟨t, hsim, he, hp⟩

/-- C1 witness: both conjuncts at concrete series.  Bar 2's held position is
`signal[1]`; a flip to 1 at bar 1 of a 4-bar series enters at bar 2. -/
theorem sim_lag_invariant_witness :
    (simLoop (futuresCostFn (5/2) (1/2) (25/2)) [10, 11, 12] [10, 11, 12]
      [10, 11, 12] [0, 1, 0] 1 2 initState).position =
        ([0, 1, 0] : List ℚ).getD 1 0 ∧
    ∃ t : Trade, simulate_trades (futuresCostFn (5/2) (1/2) (25/2))
        [10, 11, 12, 13] [10, 11, 12, 13] [10, 11, 12, 13] [10, 11, 12, 13]
        [0, 1, 1, 1] = [t] ∧ t.entry_bar = 1 + 1 ∧
        t.entry_price = ([10, 11, 12, 13] : List ℚ).getD (1 + 1) 0 :=
  ⟨sim_lag_invariant.1 (futuresCostFn (5/2) (1/2) (25/2)) [10, 11, 12]
      [10, 11, 12] [10, 11, 12] [0, 1, 0] 2 (by decide) (by decide),
   sim_lag_invariant.2 (futuresCostFn (5/2) (1/2) (25/2)) [10, 11, 12, 13]
      [10, 11, 12, 13] [10, 11, 12, 13] [10, 11, 12, 13] [0, 1, 1, 1] 1 1
      (by decide) (by decide) (by decide)
      (fun j hj => by interval_cases j; rfl)
      (fun j h1 h2 => by
        have h4 : j < 4 := by simpa using h2
        interval_cases j <;> rfl)⟩

/-- C2 (counterexample): the claim's round-trip scenario run on the code.
With the one-bar lag, the first non-zero signal (bar 1) acts at bar 2, so
the entry is bar 2 at open 99 — not bar 1 at 101 as claimed; the flip to 0
at bar 4 can only act at the nonexistent bar 5, so the trade is
flush-closed at bar 4's close 105 and net pnl is (105-99) - 17.5 = -11.5,
not the claimed -16.5. -/
theorem round_trip_scenario_counterexample :
    simulate_trades (futuresCostFn (5/2) (1/2) (25/2))
      [100, 101, 99, 102, 105] [100, 101, 99, 102, 105]
      [100, 101, 99, 102, 105] [100, 101, 99, 102, 105] [0, 1, 1, 1, 0] =
      [⟨2, 4, "long", 99, 105, -23/2, 6, 0⟩] ∧
    (2 : ℕ) ≠ 1 ∧ (99 : ℚ) ≠ 101 ∧ (-23/2 : ℚ) ≠ -33/2 :=
  ⟨by with_unfolding_all rfl, by decide, by norm_num, by norm_num⟩

/-- C2 (amended): the scenario produces exactly one trade entering at bar
2's open (99) and flush-closed at bar 4's close (105); the futures model
{2.5, 0.5, 12.5} costs 17.5 per round trip, so net pnl = 6 - 17.5 = -11.5. -/
theorem round_trip_scenario_amended :
    simulate_trades (futuresCostFn (5/2) (1/2) (25/2))
      [100, 101, 99, 102, 105] [100, 101, 99, 102, 105]
      [100, 101, 99, 102, 105] [100, 101, 99, 102, 105] [0, 1, 1, 1, 0] =
      [⟨2, 4, "long", 99, 105, -23/2, 6, 0⟩] ∧
    compute_round_trip_cost
      ⟨some "futures", some (5/2), some (1/2), some (25/2), none, none, none, none⟩
      99 = .ok (35/2) ∧
    (-23/2 : ℚ) = (105 - 99) - 35/2 :=
  ⟨by with_unfolding_all rfl, by with_unfolding_all rfl, by norm_num⟩

/-- C3 (counterexample): a signal series that goes non-zero (only) at the
very last bar, never returns to 0 and never reverses, yet yields zero
trades — the lagged decision would only act on a bar past the end. -/
theorem flush_invariant_counterexample :
    simulate_trades (futuresCostFn (5/2) (1/2) (25/2)) [1, 2, 3] [1, 2, 3]
      [1, 2, 3] [1, 2, 3] [0, 0, 1] = [] ∧ ¬ (([] : List Trade).length = 1) :=
  ⟨by with_unfolding_all rfl, by decide⟩

/-- C3 (amended): a signal series that flips to `v ≠ 0` at bar `k` and then
never returns to 0 and never reverses yields exactly one trade, force-closed
at the final bar's close (not its open), with the entry at bar `k+1`'s open —
provided the flip happens before the final bar (`k ≤ n-2`). -/
theorem flush_invariant (rtCost : ℚ → ℚ)
    (opens highs lows closes signals : List ℚ) (k : ℕ) (v : ℚ)
    (hv : v ≠ 0) (hlen : signals.length = opens.length)
    (hk : k + 2 ≤ opens.length)
    (hk0 : ∀ j, j < k → signals.getD j 0 = 0)
    (hkv : ∀ j, k ≤ j → j < signals.length → signals.getD j 0 = v) :
    ∃ t : Trade, simulate_trades rtCost opens highs lows closes signals = [t] ∧
      t.exit_bar = opens.length - 1 ∧
      t.exit_price = closes.getD (opens.length - 1) 0 ∧
      t.entry_bar = k + 1 ∧ t.entry_price = opens.getD (k + 1) 0 := by
  obtain ⟨t, h1, h2, h3, h4, h5⟩ := simulate_single_flip rtCost opens highs lows
    closes signals k v hv hlen hk hk0 hkv
  exact ⟨t, h1, h4, h5, h2, h3⟩

/-- C3 witness: a short flip-and-hold series. -/
theorem flush_invariant_witness :
    ∃ t : Trade, simulate_trades (futuresCostFn (5/2) (1/2) (25/2))
      [100, 100, 100, 100] [100, 100, 100, 100] [100, 100, 100, 100]
      [100, 100, 100, 100] [0, -1, -1, -1] = [t] ∧
      t.exit_bar = ([100, 100, 100, 100] : List ℚ).length - 1 ∧
      t.exit_price = ([100, 100, 100, 100] : List ℚ).getD
        (([100, 100, 100, 100] : List ℚ).length - 1) 0 ∧
      t.entry_bar = 1 + 1 ∧
      t.entry_price = ([100, 100, 100, 100] : List ℚ).getD (1 + 1) 0 :=
  flush_invariant (futuresCostFn (5/2) (1/2) (25/2)) [100, 100, 100, 100]
    [100, 100, 100, 100] [100, 100, 100, 100] [100, 100, 100, 100]
    [0, -1, -1, -1] 1 (-1) (by norm_num) (by decide) (by decide)
    (fun j hj => by interval_cases j; rfl)
    (fun j h1 h2 => by
      have h4 : j < 4 := by simpa using h2
      interval_cases j <;> rfl)

/-- C4 (counterexample): a position opened on the final bar is immediately
flush-closed on that same bar, producing a trade with entry bar = exit
bar = 1, violating the claimed strict `entry < exit`. -/
theorem trade_record_counterexample :
    simulate_trades (futuresCostFn (5/2) (1/2) (25/2)) [10, 20] [10, 20]
      [10, 20] [10, 20] [1, 1] = [⟨1, 1, "long", 20, 20, -35/2, 0, 0⟩] ∧
    ¬ ((1 : ℕ) < 1) :=
  ⟨by with_unfolding_all rfl, by decide⟩

/-- C4 (amended): every trade the simulator produces, for any price and
signal series and any cost function, has entry bar ≤ exit bar (strict
except for a position opened on the final bar and flush-closed there),
max favorable excursion ≥ 0 and max adverse excursion ≤ 0. -/
theorem trade_record_invariant (rtCost : ℚ → ℚ)
    (opens highs lows closes signals : List ℚ) :
    ∀ t ∈ simulate_trades rtCost opens highs lows closes signals,
      t.entry_bar ≤ t.exit_bar ∧ 0 ≤ t.mfe ∧ t.mae ≤ 0 := by
  have hstok : StOK (opens.length - 1)
      (simLoop rtCost opens highs lows signals 1 (opens.length - 1) initState) := by
    rcases Nat.eq_zero_or_pos (opens.length - 1) with h0 | hpos
    · rw [h0]; exact initState_StOK 0
    · obtain ⟨f, hf⟩ : ∃ f, opens.length - 1 = f + 1 := ⟨opens.length - 2, by omega⟩
      rw [hf]
      have h := simLoop_StOK rtCost opens highs lows signals f 1 initState
        (initState_StOK 1)
      rw [show (1 : ℕ) + f = f + 1 from by omega] at h
      exact h
  intro t ht
  simp only [simulate_trades] at ht
  by_cases hcond : (simLoop rtCost opens highs lows signals 1
      (opens.length - 1) initState).position ≠ 0
  · rw [if_pos hcond] at ht
    rcases List.mem_append.mp ht with h | h
    · exact hstok.1 t h
    · rcases List.mem_singleton.mp h with rfl
      exact ⟨hstok.2.1 hcond, hstok.2.2.1, hstok.2.2.2⟩
  · rw [if_neg hcond] at ht
    exact hstok.1 t ht

/-- C4 witness: the invariant read off the round-trip scenario's trade. -/
theorem trade_record_invariant_witness :
    (⟨2, 4, "long", 99, 105, -23/2, 6, 0⟩ : Trade).entry_bar ≤
      (⟨2, 4, "long", 99, 105, -23/2, 6, 0⟩ : Trade).exit_bar ∧
    0 ≤ (⟨2, 4, "long", 99, 105, -23/2, 6, 0⟩ : Trade).mfe ∧
    (⟨2, 4, "long", 99, 105, -23/2, 6, 0⟩ : Trade).mae ≤ 0 :=
  trade_record_invariant (futuresCostFn (5/2) (1/2) (25/2))
    [100, 101, 99, 102, 105] [100, 101, 99, 102, 105] [100, 101, 99, 102, 105]
    [100, 101, 99, 102, 105] [0, 1, 1, 1, 0]
    ⟨2, 4, "long", 99, 105, -23/2, 6, 0⟩
    (by
      have e : simulate_trades (futuresCostFn (5/2) (1/2) (25/2))
          [100, 101, 99, 102, 105] [100, 101, 99, 102, 105]
          [100, 101, 99, 102, 105] [100, 101, 99, 102, 105] [0, 1, 1, 1, 0] =
          [⟨2, 4, "long", 99, 105, -23/2, 6, 0⟩] := by with_unfolding_all rfl
      rw [e]
      exact List.mem_singleton.mpr rfl)

/-- C7: the cost-model dispatch of `compute_round_trip_cost`: each supported
variant returns the documented formula (futures independent of notional,
CEX proportional to notional, DEX = CEX plus flat gas), and any other type
tag fails with an error naming the unknown type, never silently defaulting. -/
theorem cost_model_dispatch :
    (∀ (cp sl tv mf tf sp gas notional : ℚ),
      compute_round_trip_cost
        ⟨some "futures", some cp, some sl, some tv, some mf, some tf, some sp, some gas⟩
        notional = .ok (2 * cp + 2 * sl * tv)) ∧
    (∀ (cp sl tv mf tf sp gas notional : ℚ),
      compute_round_trip_cost
        ⟨some "crypto_cex", some cp, some sl, some tv, some mf, some tf, some sp, some gas⟩
        notional = .ok ((mf + tf + 2 * sp) * notional)) ∧
    (∀ (cp sl tv mf tf sp gas notional : ℚ),
      compute_round_trip_cost
        ⟨some "crypto_dex", some cp, some sl, some tv, some mf, some tf, some sp, some gas⟩
        notional = .ok ((mf + tf + 2 * sp) * notional + 2 * gas)) ∧
    (∀ (cm : CostModel) (notional : ℚ) (t : String), cm.type = some t →
      t ≠ "futures" → t ≠ "crypto_cex" → t ≠ "crypto_dex" →
      compute_round_trip_cost cm notional =
        .error ("Unknown cost model type: " ++ t)) := by
  refine ⟨fun cp sl tv mf tf sp gas notional => rfl,
          fun cp sl tv mf tf sp gas notional => rfl,
          fun cp sl tv mf tf sp gas notional => rfl,
          fun cm notional t htype h1 h2 h3 => ?_⟩
  simp only [compute_round_trip_cost, htype, Option.getD_some]
  rw [if_neg h1, if_neg h2, if_neg h3]

/-- C7 witness: the futures formula at the default model values, and the
error on an unsupported tag, at concrete inputs. -/
theorem cost_model_dispatch_witness :
    compute_round_trip_cost
      ⟨some "futures", some (5/2), some (1/2), some (25/2), some 0, some 0, some 0, some 0⟩
      100 = .ok (2 * (5/2) + 2 * (1/2) * (25/2)) ∧
    compute_round_trip_cost
      ⟨some "equities", none, none, none, none, none, none, none⟩ 100 =
      .error ("Unknown cost model type: " ++ "equities") :=
  ⟨cost_model_dispatch.1 (5/2) (1/2) (25/2) 0 0 0 0 100,
   cost_model_dispatch.2.2.2 _ 100 "equities" rfl (by decide) (by decide) (by decide)⟩

/-- C9: `compute_metrics` on the empty trade list returns the all-zero
bundle (every numeric field 0, `total_trades` 0) and, being total, never
throws; this holds for every abstracted square-root function. -/
theorem metrics_empty_zero (sqrtFn : ℚ → ℚ) :
    compute_metrics sqrtFn [] =
      { total_pnl := 0, sharpe_ratio := 0, max_drawdown := 0,
        max_drawdown_dollars := 0, win_rate := 0, profit_factor := .finite 0,
        total_trades := 0, avg_trade_pnl := 0, avg_winner := 0, avg_loser := 0,
        max_consecutive_losses := 0, avg_holding_bars := 0, expectancy := 0,
        calmar_ratio := 0 } := rfl

/-- C8: whenever no trade has strictly negative pnl and some trade has
strictly positive pnl (so gross_loss = 0 and gross_profit > 0), the
profit factor field is the infinite sentinel; the `gross_profit /
gross_loss` division is guarded by `gross_loss > 0` and is never reached. -/
theorem profit_factor_infinity (sqrtFn : ℚ → ℚ) (trades : List Trade)
    (hne : trades ≠ [])
    (hnoloss : ∀ t ∈ trades, ¬ t.pnl < 0)
    (_hwin : ∃ t ∈ trades, 0 < t.pnl) :
    (compute_metrics sqrtFn trades).profit_factor = .infinite := by
  have hfilter : (trades.map Trade.pnl).filter (fun p => decide (p < 0)) = [] := by
    rw [List.filter_eq_nil_iff]
    intro p hp
    rcases List.mem_map.mp hp with ⟨t, ht, rfl⟩
    simpa using hnoloss t ht
  rw [compute_metrics, if_neg (by simpa using hne)]
  simp only [hfilter, List.length_nil, pfRound]
  norm_num

/-- C8 witness: a single all-winning trade. -/
theorem profit_factor_infinity_witness :
    (compute_metrics (fun q => q)
      [⟨0, 1, "long", 100, 101, 1, 1, 0⟩]).profit_factor = .infinite :=
  profit_factor_infinity (fun q => q) [⟨0, 1, "long", 100, 101, 1, 1, 0⟩]
    (by decide) (by decide) ⟨⟨0, 1, "long", 100, 101, 1, 1, 0⟩, by decide⟩

/-- Abstract form of the grade table: the three sequential UNDER_REVIEW
tests of the source equal the specification's single disjunction. -/
theorem gradeTableShape {α : Type} (P1 P2 P3 P4 Q1 Q2 Q3 G : Prop)
    [Decidable P1] [Decidable P2] [Decidable P3] [Decidable P4]
    [Decidable Q1] [Decidable Q2] [Decidable Q3] [Decidable G] (r u g : α) :
    (if P1 then r else if P2 then r else if P3 then r else if P4 then r
      else if Q1 then u else if Q2 then u else if Q3 then u
      else if G then g else u) =
    (if P1 then r else if P2 then r else if P3 then r else if P4 then r
      else if Q1 ∨ Q2 ∨ Q3 then u else if G then g else u) := by
  split_ifs <;> tauto

/-- In `grade_result`, `passed = false` exactly on the rejected branches. -/
theorem gradeResultPassed (m : BacktestMetrics) (fl : AntiOverfitFlags) :
    ((grade_result m fl).1 = false ↔ (grade_result m fl).2 = "rejected") := by
  rw [grade_result]
  split_ifs <;> decide

/-- C5: the composition `grade_result ∘ check_overfit_flags` from the source
equals the specification's top-to-bottom first-match decision table
(including each threshold's boundary side), and `passed = false` exactly on
the rejected branches. -/
theorem grade_decision_table (metrics : BacktestMetrics) (monthly_returns : List ℚ) :
    grade_result metrics (check_overfit_flags metrics monthly_returns) =
      gradeSpecTable metrics monthly_returns ∧
    ((grade_result metrics (check_overfit_flags metrics monthly_returns)).1 = false ↔
      (grade_result metrics (check_overfit_flags metrics monthly_returns)).2 =
        "rejected") := by
  refine ⟨?_, gradeResultPassed metrics (check_overfit_flags metrics monthly_returns)⟩
  have e1 : ((check_overfit_flags metrics monthly_returns).sharpe_above_3 = true) ↔
      metrics.sharpe_ratio > 3 := by simp [check_overfit_flags]
  have e2 : ((check_overfit_flags metrics monthly_returns).win_rate_above_80 = true) ↔
      metrics.win_rate > 4/5 := by simp [check_overfit_flags]
  have e4 : ((check_overfit_flags metrics monthly_returns).no_losing_months = true) ↔
      ((monthly_returns.filter (fun p => decide (p < 0))).length = 0 ∧
        monthly_returns.length > 3) := by
    obtain _ | ⟨a, l⟩ := monthly_returns <;> simp [check_overfit_flags]
  rw [grade_result, gradeSpecTable]
  simp only [e1, e2, e4]
  exact gradeTableShape _ _ _ _ _ _ _ _ _ _ _

/-- The length of the walk-forward fold list, for any sufficient fuel and
positive step: one fold per window position that fits entirely. -/
theorem wfFoldsAux_length (train_bars test_bars step_bars total_bars : ℕ)
    (hstep : 1 ≤ step_bars) :
    ∀ (fuel start fold_num : ℕ), total_bars + 1 ≤ fuel + start →
      (wfFoldsAux train_bars test_bars step_bars total_bars start fold_num
        fuel).length =
        if start + train_bars + test_bars ≤ total_bars then
          (total_bars - train_bars - test_bars - start) / step_bars + 1 else 0 := by
  intro fuel
  induction fuel with
  | zero =>
      intro start fold_num hfuel
      rw [if_neg (by omega)]
      rfl
  | succ fuel ih =>
      intro start fold_num hfuel
      simp only [wfFoldsAux]
      by_cases hc : start + train_bars + test_bars ≤ total_bars
      · rw [if_pos hc, if_pos hc, List.length_cons,
          ih (start + step_bars) (fold_num + 1) (by omega)]
        by_cases hc2 : start + step_bars + train_bars + test_bars ≤ total_bars
        · rw [if_pos hc2,
            Nat.div_eq (total_bars - train_bars - test_bars - start) step_bars,
            if_pos ⟨by omega, by omega⟩,
            show total_bars - train_bars - test_bars - start - step_bars =
              total_bars - train_bars - test_bars - (start + step_bars) from by omega]
        · rw [if_neg hc2, Nat.div_eq_of_lt (by omega)]
      · rw [if_neg hc, if_neg hc]
        rfl

/-- The `k`-th walk-forward fold covers `[start + k*step, ... + train)` as
train and the following `test` bars as test, with 1-based fold number. -/
theorem wfFoldsAux_get (train_bars test_bars step_bars total_bars : ℕ) :
    ∀ (fuel start fold_num k : ℕ),
      k < (wfFoldsAux train_bars test_bars step_bars total_bars start fold_num
        fuel).length →
      (wfFoldsAux train_bars test_bars step_bars total_bars start fold_num
        fuel).getD k ⟨0, 0, 0, 0, 0⟩ =
        ⟨fold_num + k + 1, start + k * step_bars,
          start + k * step_bars + train_bars, start + k * step_bars + train_bars,
          start + k * step_bars + train_bars + test_bars⟩ := by
  intro fuel
  induction fuel with
  | zero => intro start fold_num k hk; simp [wfFoldsAux] at hk
  | succ fuel ih =>
      intro start fold_num k hk
      simp only [wfFoldsAux] at hk ⊢
      by_cases hc : start + train_bars + test_bars ≤ total_bars
      · rw [if_pos hc] at hk ⊢
        cases k with
        | zero =>
            simp only [List.getD_cons_zero]
            simp [WFFold.mk.injEq, Nat.min_eq_left hc]
        | succ k =>
            simp only [List.getD_cons_succ]
            rw [ih (start + step_bars) (fold_num + 1) k
              (by simp only [List.length_cons] at hk; omega)]
            simp only [WFFold.mk.injEq]
            refine ⟨by omega, by ring, by ring, by ring, by ring⟩
      · rw [if_neg hc] at hk
        simp at hk

/-- C6: with `step ≥ 1`, the walk-forward run yields exactly
`(L - train - test)/step + 1` folds when `L ≥ train + test` and a report
with zero folds and all-zero aggregates (not an error) when the windows do
not fit; fold `k` (0-based) trains on `[k*step, k*step+train)` and tests on
`[k*step+train, k*step+train+test)`, with no partial final fold. -/
theorem walk_forward_fold_count (oracle : ℕ → ℚ × ℚ × ℚ)
    (train_bars test_bars step_bars total_bars : ℕ) (hstep : 1 ≤ step_bars) :
    (train_bars + test_bars ≤ total_bars →
      (run_walk_forward oracle train_bars test_bars step_bars
        total_bars).total_folds =
        (total_bars - train_bars - test_bars) / step_bars + 1) ∧
    (total_bars < train_bars + test_bars →
      run_walk_forward oracle train_bars test_bars step_bars total_bars =
        ⟨0, [], 0, 0, 0, 0, 0⟩) ∧
    (∀ k, k < (wfFolds train_bars test_bars step_bars total_bars).length →
      (wfFolds train_bars test_bars step_bars total_bars).getD k ⟨0, 0, 0, 0, 0⟩ =
        ⟨k + 1, k * step_bars, k * step_bars + train_bars,
          k * step_bars + train_bars,
          k * step_bars + train_bars + test_bars⟩) := by
  refine ⟨?_, ?_, ?_⟩
  · intro hle
    have h := wfFoldsAux_length train_bars test_bars step_bars total_bars hstep
      (total_bars + 1) 0 0 (by omega)
    rw [if_pos (by omega)] at h
    simp only [run_walk_forward, wfFolds]
    rw [h, Nat.sub_zero]
  · intro hlt
    have hemp : wfFolds train_bars test_bars step_bars total_bars = [] := by
      rw [wfFolds]
      simp only [wfFoldsAux]
      rw [if_neg (by omega)]
    simp only [run_walk_forward, hemp]
    rfl
  · intro k hk
    have h := wfFoldsAux_get train_bars test_bars step_bars total_bars
      (total_bars + 1) 0 0 k hk
    rw [show wfFolds train_bars test_bars step_bars total_bars =
      wfFoldsAux train_bars test_bars step_bars total_bars 0 0 (total_bars + 1)
      from rfl, h]
    simp [WFFold.mk.injEq]

/-- C6 witness: a 5-bar series with train 2, test 1, step 1 has 3 folds
(here: fold index 1); with train 4, test 3 nothing fits and the report is
all-zero. -/
theorem walk_forward_fold_count_witness :
    (run_walk_forward (fun _ => (0, 0, 0)) 2 1 1 5).total_folds =
      (5 - 2 - 1) / 1 + 1 ∧
    run_walk_forward (fun _ => (0, 0, 0)) 4 3 1 5 = ⟨0, [], 0, 0, 0, 0, 0⟩ ∧
    (wfFolds 2 1 1 5).getD 1 ⟨0, 0, 0, 0, 0⟩ =
      ⟨1 + 1, 1 * 1, 1 * 1 + 2, 1 * 1 + 2, 1 * 1 + 2 + 1⟩ :=
  ⟨(walk_forward_fold_count (fun _ => (0, 0, 0)) 2 1 1 5 (by decide)).1 (by decide),
   (walk_forward_fold_count (fun _ => (0, 0, 0)) 4 3 1 5 (by decide)).2.1 (by decide),
   (walk_forward_fold_count (fun _ => (0, 0, 0)) 2 1 1 5 (by decide)).2.2 1
     (by decide)⟩

/-- C10: whenever fewer than 10 observations lie strictly below the 5th
percentile of the returns, `evt_var` does not use the GPD branch — for
every possible fit outcome it returns exactly the empirical historical
VaR, the `(1-confidence)*100` percentile of the returns, and (being a
total function) never raises. -/
theorem evt_fallback (gpdBranch : List ℚ → Option ℚ) (returns : List ℚ)
    (confidence : ℚ)
    (h : (returns.filter (fun r => decide (r < percentile returns 5))).length < 10) :
    evt_var gpdBranch returns confidence =
      percentile returns ((1 - confidence) * 100) := by
  by_cases h20 : returns.length < 20
  · rw [evt_var, if_pos h20]
  · rw [evt_var, if_neg h20]
    simp only [List.length_map]
    rw [if_pos h]

/-- C10 witness: three returns, one tail exceedance. -/
theorem evt_fallback_witness :
    evt_var (fun _ => none) [-1, 0, 1] (99/100) =
      percentile [-1, 0, 1] ((1 - 99/100) * 100) :=
  evt_fallback (fun _ => none) [-1, 0, 1] (99/100) (by
    have h1 : (([-1, 0, 1] : List ℚ).filter
        (fun r => decide (r < percentile [-1, 0, 1] 5))).length = 1 := by
      with_unfolding_all rfl
    omega)

end SigmaQuant
